import Mathlib

/-!
Verification of the panel-management page (`src/app/page.tsx`).

The page keeps three pieces of React state:
  * `panelOrder : PanelType[]`, initially `['map', 'music', 'chat']`;
  * `openPanels : Set<PanelType>`, initially all three;
  * `activeId : PanelType | null`, initially `null`;
and the handlers `handleDragStart`, `handleDragEnd`, `handleDragCancel`,
`togglePanel`, `closePanel`, plus the derived list `visiblePanels`.

The embedding below models these directly.  `handleDragEnd` calls the
`arrayMove` helper of the `@dnd-kit/sortable` package, which is

    export function arrayMove<T>(array: T[], from: number, to: number): T[] {
      const newArray = array.slice();
      newArray.splice(
        to < 0 ? newArray.length + to : to,
        0,
        newArray.splice(from, 1)[0],
      );
      return newArray;
    }

so the embedding also models JavaScript `Array.prototype.indexOf` (which
yields `-1` for a missing element) and `Array.prototype.splice` (whose start
index is clamped into range, with negative values counted from the end).
JavaScript evaluates the arguments of the outer `splice` left to right, so
the insertion position is computed from the length of the array *before* the
inner `splice` removes the moved element.
-/

/-- The closed set of panel identities (`type PanelType = 'map' | 'music' | 'chat'`). -/
inductive PanelType where
  | map
  | music
  | chat
deriving DecidableEq, Repr

/-- `interface Panel { id; title; icon }`.  The icon is an opaque renderable
reference; it is modelled by the name of the imported icon component. -/
structure Panel where
  id : PanelType
  title : String
  icon : String
deriving DecidableEq, Repr

/-- The registry `allPanels` from the source, in its order. -/
def allPanels : List Panel :=
  [⟨PanelType.map, "Map", "MapIcon"⟩,
   ⟨PanelType.music, "Music", "MusicalNoteIcon"⟩,
   ⟨PanelType.chat, "Chat", "ChatBubbleBottomCenterIcon"⟩]

/-- JS `Array.prototype.indexOf`: the index of the first occurrence of `x`
in `items`, or `-1` when `x` does not occur. -/
def jsIndexOf (items : List PanelType) (x : PanelType) : Int :=
  if x ∈ items then (items.indexOf x : Int) else -1

/-- JS `Array.prototype.splice` start-index normalisation: a negative index
counts from the end (clamped below by `0`), an index past the end is clamped
to the length. -/
def jsSpliceIndex (len : Nat) (i : Int) : Nat :=
  if i < 0 then ((len : Int) + i).toNat else min i.toNat len

/-- The removal half of `array.splice(from, 1)`: the removed element (if
any) together with the remaining array. -/
def jsSpliceRemove1 {α : Type} (array : List α) (fromIdx : Int) :
    Option α × List α :=
  let s := jsSpliceIndex array.length fromIdx
  match array.get? s with
  | some a => (some a, array.eraseIdx s)
  | none => (none, array)

/-- `arrayMove` from `@dnd-kit/sortable` (see the file header).  The
insertion position is computed from the pre-removal length, matching JS
left-to-right argument evaluation.  When the inner `splice` removes nothing
(which happens only on an empty array) JS would insert `undefined`; the
model returns the array unchanged in that unreachable corner. -/
def arrayMove {α : Type} (array : List α) (fromIdx toIdx : Int) : List α :=
  let rawPos : Int := if toIdx < 0 then (array.length : Int) + toIdx else toIdx
  match jsSpliceRemove1 array fromIdx with
  | (some a, rest) => rest.insertIdx (jsSpliceIndex rest.length rawPos) a
  | (none, _) => array

/-- The component's state triple (`panelOrder`, `openPanels`, `activeId`). -/
structure AppState where
  panelOrder : List PanelType
  openPanels : Finset PanelType
  activeId : Option PanelType
deriving DecidableEq

/-- `useState` initial values: order `['map','music','chat']`, all panels
open, no active drag. -/
def initialState : AppState :=
  ⟨[PanelType.map, PanelType.music, PanelType.chat],
   {PanelType.map, PanelType.music, PanelType.chat},
   none⟩

/-- A `DragEndEvent` as consumed by `handleDragEnd`: the active id and the
id of the droppable the pointer is over (`over` may be `null`). -/
structure DragEndEvent where
  active : PanelType
  over : Option PanelType

/-- `handleDragStart`: records the dragged id into `activeId`. -/
def handleDragStart (s : AppState) (active : PanelType) : AppState :=
  { s with activeId := some active }

/-- `handleDragEnd`: clears `activeId`; when `over` is non-null and differs
from `active`, replaces `panelOrder` by
`arrayMove(items, items.indexOf(active.id), items.indexOf(over.id))`. -/
def handleDragEnd (s : AppState) (e : DragEndEvent) : AppState :=
  let s' := { s with activeId := none }
  match e.over with
  | some overId =>
      if e.active ≠ overId then
        let newOrder := arrayMove s.panelOrder (jsIndexOf s.panelOrder e.active)
          (jsIndexOf s.panelOrder overId)
        { s' with panelOrder := newOrder }
      else s'
  | none => s'

/-- `handleDragCancel`: clears `activeId` and nothing else. -/
def handleDragCancel (s : AppState) : AppState :=
  { s with activeId := none }

/-- `togglePanel`: delete the id from `openPanels` if present, add it
otherwise. -/
def togglePanel (s : AppState) (panelId : PanelType) : AppState :=
  { s with openPanels :=
      if panelId ∈ s.openPanels then s.openPanels.erase panelId
      else insert panelId s.openPanels }

/-- `closePanel`: unconditionally delete the id from `openPanels`. -/
def closePanel (s : AppState) (panelId : PanelType) : AppState :=
  { s with openPanels := s.openPanels.erase panelId }

/-- `allPanels.find(p => p.id === id)`. -/
def findPanel (id : PanelType) : Option Panel :=
  allPanels.find? (fun p => p.id = id)

/-- `visiblePanels = panelOrder.filter(id => openPanels.has(id)).map(id =>
allPanels.find(p => p.id === id)!)`.  The non-null assertion is sound
because `findPanel` succeeds for every identity (`findPanel_eq` below), so
`filterMap` agrees with the source's `map` with `!`. -/
def visiblePanels (s : AppState) : List Panel :=
  (s.panelOrder.filter (fun id => id ∈ s.openPanels)).filterMap findPanel

/-- The panel definition registered for each identity. -/
def panelDef : PanelType → Panel
  | PanelType.map => ⟨PanelType.map, "Map", "MapIcon"⟩
  | PanelType.music => ⟨PanelType.music, "Music", "MusicalNoteIcon"⟩
  | PanelType.chat => ⟨PanelType.chat, "Chat", "ChatBubbleBottomCenterIcon"⟩

/-- The registry's identity list, in registry order. -/
def registryIds : List PanelType := allPanels.map Panel.id

/-- The spec's wording of `reorder`: remove `fromId` from Order and reinsert
it at the position currently occupied by `toId`. -/
def specReorder (order : List PanelType) (fromId toId : PanelType) :
    List PanelType :=
  (order.erase fromId).insertIdx (order.indexOf toId) fromId

/-- A sidebar interaction on one fixed panel id: a `togglePanel` call or a
`closePanel` call. -/
inductive SidebarOp where
  | toggle
  | close
deriving DecidableEq, Repr

/-- Run one sidebar interaction for the identity `id`. -/
def sidebarStep (id : PanelType) (s : AppState) : SidebarOp → AppState
  | SidebarOp.toggle => togglePanel s id
  | SidebarOp.close => closePanel s id

/-- Run a sequence of sidebar interactions for the identity `id`. -/
def runSidebar (id : PanelType) (s : AppState) (ops : List SidebarOp) : AppState :=
  ops.foldl (sidebarStep id) s

/-- The number of toggles after the last close (the whole count when no
close occurred), paired with whether any close occurred. -/
def togglesSinceClose (ops : List SidebarOp) : Nat × Bool :=
  ops.foldl
    (fun acc op =>
      match op with
      | SidebarOp.toggle => (acc.1 + 1, acc.2)
      | SidebarOp.close => (0, true))
    (0, false)

/-- A state whose Order lacks `map`, used to probe `reorder` on an identity
absent from Order. -/
def absentIdState : AppState := ⟨[PanelType.music, PanelType.chat], ∅, none⟩

/-! ### Helper lemmas about the embedded operations -/

theorem findPanel_eq (id : PanelType) : findPanel id = some (panelDef id) := by
  cases id <;> rfl

theorem panelDef_id (id : PanelType) : (panelDef id).id = id := by
  cases id <;> rfl

theorem panelDef_mem (id : PanelType) : panelDef id ∈ allPanels := by
  cases id <;> decide

theorem mem_registryIds (id : PanelType) : id ∈ registryIds := by
  cases id <;> decide

theorem filterMap_findPanel (l : List PanelType) :
    l.filterMap findPanel = l.map panelDef := by
  induction l with
  | nil => rfl
  | cons a t ih => simp [List.filterMap_cons, findPanel_eq, ih]

theorem jsSpliceIndex_coe (len k : Nat) (h : k ≤ len) :
    jsSpliceIndex len (k : Int) = k := by
  unfold jsSpliceIndex
  split
  · omega
  · omega

theorem eraseIdx_length_sub_one {α : Type} :
    ∀ (l : List α), l.eraseIdx (l.length - 1) = l.dropLast
  | [] => rfl
  | [_] => rfl
  | a :: b :: t => by
      show a :: (b :: t).eraseIdx ((b :: t).length - 1) = _
      rw [eraseIdx_length_sub_one (b :: t)]
      rfl

/-- Removing one element at the index of a present element removes its first
occurrence. -/
theorem jsSpliceRemove1_indexOf (l : List PanelType) (a : PanelType) (h : a ∈ l) :
    jsSpliceRemove1 l ((l.indexOf a : Int)) = (some a, l.erase a) := by
  have hlt : l.indexOf a < l.length := List.indexOf_lt_length.mpr h
  have hidx : jsSpliceIndex l.length ((l.indexOf a : Int)) = l.indexOf a :=
    jsSpliceIndex_coe _ _ (le_of_lt hlt)
  simp only [jsSpliceRemove1, hidx, List.indexOf_get? h,
    List.eraseIdx_indexOf_eq_erase]

/-- Removal at JS index `-1` takes the last element of a nonempty array. -/
theorem jsSpliceRemove1_neg_one {α : Type} (l : List α) (h : l ≠ []) :
    jsSpliceRemove1 l (-1) = (some (l.getLast h), l.dropLast) := by
  have hlen : 0 < l.length := List.length_pos.mpr h
  have hidx : jsSpliceIndex l.length (-1) = l.length - 1 := by
    unfold jsSpliceIndex
    split
    · omega
    · omega
  have hget : l.get? (l.length - 1) = some (l.getLast h) := by
    rw [List.getLast_eq_getElem]
    rw [List.get?_eq_getElem?]
    exact List.getElem?_eq_getElem (by omega)
  simp only [jsSpliceRemove1, hidx, hget, eraseIdx_length_sub_one]

/-- Inserting at an in-range position is a permutation of consing. -/
theorem insertIdx_perm_cons {α : Type} (a : α) :
    ∀ (n : Nat) (l : List α), n ≤ l.length → (l.insertIdx n a).Perm (a :: l)
  | 0, l, _ => by simp
  | n + 1, [], h => by simp at h
  | n + 1, b :: t, h => by
      rw [List.insertIdx_succ_cons]
      exact ((insertIdx_perm_cons a n t (by simpa using h)).cons b).trans
        (List.Perm.swap a b t)

/-- `arrayMove` applied at the `indexOf`s of two present identities: the
first occurrence of `fromId` is removed and reinserted at `toId`'s
pre-removal index. -/
theorem arrayMove_indexOf_mem (order : List PanelType) (fromId toId : PanelType)
    (hfrom : fromId ∈ order) (hto : toId ∈ order) :
    arrayMove order (jsIndexOf order fromId) (jsIndexOf order toId) =
      (order.erase fromId).insertIdx (order.indexOf toId) fromId := by
  have htl : order.indexOf toId < order.length := List.indexOf_lt_length.mpr hto
  have herase : (order.erase fromId).length + 1 = order.length :=
    List.length_erase_add_one hfrom
  have hins : jsSpliceIndex (order.erase fromId).length
      ((order.indexOf toId : Int)) = order.indexOf toId :=
    jsSpliceIndex_coe _ _ (by omega)
  have hnneg : ¬ ((order.indexOf toId : Int) < 0) := by omega
  simp only [arrayMove, jsIndexOf, if_pos hfrom, if_pos hto, if_neg hnneg,
    jsSpliceRemove1_indexOf order fromId hfrom, hins]

/-- `arrayMove` with source index `-1`: the last element is removed and
reinserted at `k`. -/
theorem arrayMove_neg_one_left {α : Type} (l : List α) (h : l ≠ []) (k : Nat)
    (hk : k < l.length) :
    arrayMove l (-1) (k : Int) = l.dropLast.insertIdx k (l.getLast h) := by
  have hnneg : ¬ ((k : Int) < 0) := by omega
  have hins : jsSpliceIndex l.dropLast.length (k : Int) = k := by
    refine jsSpliceIndex_coe _ _ ?_
    rw [List.length_dropLast]
    omega
  simp only [arrayMove, if_neg hnneg, jsSpliceRemove1_neg_one l h, hins]

/-- `arrayMove` with target index `-1`: the element at the source index is
moved to the end. -/
theorem arrayMove_indexOf_neg_one (l : List PanelType) (a : PanelType)
    (h : a ∈ l) :
    arrayMove l ((l.indexOf a : Int)) (-1) = l.erase a ++ [a] := by
  have hlen : 0 < l.length := List.length_pos.mpr (List.ne_nil_of_mem h)
  have hneg : ((-1 : Int) < 0) := by omega
  have he := List.length_erase_add_one h
  have hins : jsSpliceIndex (l.erase a).length ((l.length : Int) + (-1)) =
      (l.erase a).length := by
    unfold jsSpliceIndex
    split
    · omega
    · omega
  simp only [arrayMove, if_pos hneg, jsSpliceRemove1_indexOf l a h, hins,
    List.insertIdx_length_self]

/-- `arrayMove` with both indices `-1` on a nonempty array: the last element
is removed and appended back, so the array is unchanged. -/
theorem arrayMove_neg_one_both {α : Type} (l : List α) (h : l ≠ []) :
    arrayMove l (-1) (-1) = l := by
  have hneg : ((-1 : Int) < 0) := by omega
  have hlen : 0 < l.length := List.length_pos.mpr h
  have hins : jsSpliceIndex l.dropLast.length ((l.length : Int) + (-1)) =
      l.dropLast.length := by
    rw [List.length_dropLast]
    unfold jsSpliceIndex
    split
    · omega
    · omega
  simp only [arrayMove, if_pos hneg, jsSpliceRemove1_neg_one l h, hins,
    List.insertIdx_length_self]
  exact List.dropLast_append_getLast h

/-! ### The claims -/

/-- C1: for distinct identities `fromId`, `toId` both present in Order, the
drag-end reorder removes `fromId` from Order and reinserts it at the
position occupied by `toId` (`specReorder`); in particular on Order
`[map, music, chat]`, `reorder(map, chat)` yields `[music, chat, map]`. -/
theorem reorder_removes_and_reinserts (s : AppState) (fromId toId : PanelType)
    (hfrom : fromId ∈ s.panelOrder) (hto : toId ∈ s.panelOrder)
    (hne : fromId ≠ toId) :
    (handleDragEnd s ⟨fromId, some toId⟩).panelOrder =
      specReorder s.panelOrder fromId toId ∧
    (handleDragEnd initialState ⟨PanelType.map, some PanelType.chat⟩).panelOrder =
      [PanelType.music, PanelType.chat, PanelType.map] := by
  refine ⟨?_, by decide⟩
  simp only [handleDragEnd, if_pos hne, specReorder]
  exact arrayMove_indexOf_mem s.panelOrder fromId toId hfrom hto

theorem reorder_removes_and_reinserts_witness :
    (handleDragEnd initialState ⟨PanelType.map, some PanelType.chat⟩).panelOrder =
      specReorder initialState.panelOrder PanelType.map PanelType.chat :=
  (reorder_removes_and_reinserts initialState PanelType.map PanelType.chat
    (by decide) (by decide) (by decide)).1

/-- C2: a drag-end applied to an Order that is a permutation of the
registry's identity set leaves it a permutation of that set — no
duplicates, no omissions, no foreign identities. -/
theorem reorder_preserves_registry_perm (s : AppState) (e : DragEndEvent)
    (h : s.panelOrder.Perm registryIds) :
    (handleDragEnd s e).panelOrder.Perm registryIds := by
  obtain ⟨active, over⟩ := e
  cases over with
  | none => simpa [handleDragEnd] using h
  | some overId =>
    by_cases hao : active = overId
    · simpa [handleDragEnd, hao] using h
    · have hfrom : active ∈ s.panelOrder := h.mem_iff.mpr (mem_registryIds active)
      have hto : overId ∈ s.panelOrder := h.mem_iff.mpr (mem_registryIds overId)
      have hres : (handleDragEnd s ⟨active, some overId⟩).panelOrder =
          (s.panelOrder.erase active).insertIdx
            (s.panelOrder.indexOf overId) active := by
        simp only [handleDragEnd, if_pos hao]
        exact arrayMove_indexOf_mem s.panelOrder active overId hfrom hto
      have h1 : ((s.panelOrder.erase active).insertIdx
          (s.panelOrder.indexOf overId) active).Perm
            (active :: s.panelOrder.erase active) := by
        refine insertIdx_perm_cons _ _ _ ?_
        have ht := List.indexOf_lt_length.mpr hto
        have he := List.length_erase_add_one hfrom
        omega
      rw [hres]
      exact (h1.trans (List.perm_cons_erase hfrom).symm).trans h

theorem reorder_preserves_registry_perm_witness :
    (handleDragEnd initialState
      ⟨PanelType.map, some PanelType.chat⟩).panelOrder.Perm registryIds :=
  reorder_preserves_registry_perm initialState
    ⟨PanelType.map, some PanelType.chat⟩ (by decide)

/-- C3: `visiblePanels` lists exactly Order's identities that are members of
Visibility, in Order's relative sequence, each mapped to its registered
panel definition; it never contains an identity absent from Visibility, and
with empty Visibility it is the empty sequence. -/
theorem visiblePanels_spec (s : AppState) :
    (visiblePanels s).map Panel.id =
      s.panelOrder.filter (fun id => id ∈ s.openPanels) ∧
    (∀ p ∈ visiblePanels s, p.id ∈ s.openPanels ∧ findPanel p.id = some p) ∧
    (s.openPanels = ∅ → visiblePanels s = []) := by
  have hvp : visiblePanels s =
      (s.panelOrder.filter (fun id => id ∈ s.openPanels)).map panelDef :=
    filterMap_findPanel _
  refine ⟨?_, ?_, ?_⟩
  · rw [hvp, List.map_map]
    have hfun : (Panel.id ∘ panelDef) = fun id => id := funext panelDef_id
    simp [hfun]
  · intro p hp
    rw [hvp] at hp
    obtain ⟨id, hid, rfl⟩ := List.mem_map.mp hp
    simp only [List.mem_filter, decide_eq_true_eq] at hid
    exact ⟨by rw [panelDef_id]; exact hid.2, by rw [panelDef_id]; exact findPanel_eq id⟩
  · intro hempty
    rw [hvp, hempty]
    simp

theorem visiblePanels_spec_witness :
    visiblePanels ⟨[PanelType.map, PanelType.music, PanelType.chat], ∅, none⟩ = [] :=
  (visiblePanels_spec
    ⟨[PanelType.map, PanelType.music, PanelType.chat], ∅, none⟩).2.2 rfl

theorem mem_togglePanel_self (s : AppState) (id : PanelType) :
    id ∈ (togglePanel s id).openPanels ↔ id ∉ s.openPanels := by
  unfold togglePanel
  by_cases h : id ∈ s.openPanels
  · simp [h, Finset.mem_erase]
  · simp [h]

theorem runSidebar_append_one (id : PanelType) (s : AppState)
    (ops : List SidebarOp) (op : SidebarOp) :
    runSidebar id s (ops ++ [op]) = sidebarStep id (runSidebar id s ops) op := by
  simp [runSidebar, List.foldl_append]

theorem togglesSinceClose_append_toggle (ops : List SidebarOp) :
    togglesSinceClose (ops ++ [SidebarOp.toggle]) =
      ((togglesSinceClose ops).1 + 1, (togglesSinceClose ops).2) := by
  simp [togglesSinceClose, List.foldl_append]

theorem togglesSinceClose_append_close (ops : List SidebarOp) :
    togglesSinceClose (ops ++ [SidebarOp.close]) = (0, true) := by
  simp [togglesSinceClose, List.foldl_append]

/-- C4: after any finite sequence of `toggle(id)`/`close(id)` interactions
from any starting Visibility, `id` is open iff the panel was open at the
reference point (just after the last close — hence closed — or the start if
no close occurred) exactly when the number of toggles since that point is
even: the open state equals the parity of toggles since the last close. -/
theorem toggle_close_parity (id : PanelType) (s : AppState)
    (ops : List SidebarOp) :
    id ∈ (runSidebar id s ops).openPanels ↔
      (((togglesSinceClose ops).2 = false ∧ id ∈ s.openPanels) ↔
        (togglesSinceClose ops).1 % 2 = 0) := by
  induction ops using List.reverseRecOn with
  | nil => simp [runSidebar, togglesSinceClose]
  | append_singleton ops op ih =>
    cases op with
    | toggle =>
      rw [runSidebar_append_one, togglesSinceClose_append_toggle]
      show id ∈ (togglePanel (runSidebar id s ops) id).openPanels ↔ _
      rw [mem_togglePanel_self, ih]
      have hpar : (((togglesSinceClose ops).1 + 1) % 2 = 0) ↔
          ¬ ((togglesSinceClose ops).1 % 2 = 0) := by omega
      by_cases hA : ((togglesSinceClose ops).2 = false ∧ id ∈ s.openPanels) <;>
        by_cases hk : (togglesSinceClose ops).1 % 2 = 0 <;>
          simp [hA, hk, hpar]
    | close =>
      rw [runSidebar_append_one, togglesSinceClose_append_close]
      show id ∈ (closePanel (runSidebar id s ops) id).openPanels ↔ _
      simp [closePanel, Finset.not_mem_erase]

theorem toggle_close_parity_witness :
    PanelType.map ∈ (runSidebar PanelType.map initialState
        [SidebarOp.close, SidebarOp.toggle]).openPanels ↔
      (((togglesSinceClose [SidebarOp.close, SidebarOp.toggle]).2 = false ∧
          PanelType.map ∈ initialState.openPanels) ↔
        (togglesSinceClose [SidebarOp.close, SidebarOp.toggle]).1 % 2 = 0) :=
  toggle_close_parity PanelType.map initialState
    [SidebarOp.close, SidebarOp.toggle]

/-- C6: toggling or closing a panel never changes Order, and a drag-end
never changes Visibility — the two pieces of state are independent. -/
theorem visibility_order_independent (s : AppState) (id : PanelType)
    (e : DragEndEvent) :
    (togglePanel s id).panelOrder = s.panelOrder ∧
    (closePanel s id).panelOrder = s.panelOrder ∧
    (handleDragEnd s e).openPanels = s.openPanels := by
  refine ⟨rfl, rfl, ?_⟩
  obtain ⟨a, over⟩ := e
  cases over with
  | none => rfl
  | some o =>
    simp only [handleDragEnd]
    split <;> rfl

/-- C7: a drag-start followed by a drag-cancel leaves Order and Visibility
exactly as before and clears ActiveDrag; no reorder happens on the cancel
path. -/
theorem drag_start_cancel_frame (s : AppState) (id : PanelType) :
    (handleDragCancel (handleDragStart s id)).panelOrder = s.panelOrder ∧
    (handleDragCancel (handleDragStart s id)).openPanels = s.openPanels ∧
    (handleDragCancel (handleDragStart s id)).activeId = none :=
  ⟨rfl, rfl, rfl⟩

/-- C8: a drag-end over the active identity itself, or with no drop target,
leaves Order unchanged; every drag-end clears ActiveDrag. -/
theorem reorder_self_noop (s : AppState) (a : PanelType) (e : DragEndEvent) :
    (handleDragEnd s ⟨a, some a⟩).panelOrder = s.panelOrder ∧
    (handleDragEnd s ⟨a, none⟩).panelOrder = s.panelOrder ∧
    (handleDragEnd s e).activeId = none := by
  refine ⟨by simp [handleDragEnd], rfl, ?_⟩
  obtain ⟨x, over⟩ := e
  cases over with
  | none => rfl
  | some o =>
    simp only [handleDragEnd]
    split <;> rfl

/-- C9: `closePanel` removes the id from Visibility, is idempotent, and is a
no-op (not an error) on an already-closed panel. -/
theorem close_removes_and_idempotent (s : AppState) (id : PanelType) :
    id ∉ (closePanel s id).openPanels ∧
    closePanel (closePanel s id) id = closePanel s id ∧
    (id ∉ s.openPanels → closePanel s id = s) := by
  refine ⟨Finset.not_mem_erase id s.openPanels, ?_, ?_⟩
  · simp [closePanel, Finset.erase_idem]
  · intro h
    simp [closePanel, Finset.erase_eq_of_not_mem h]

theorem close_removes_and_idempotent_witness :
    closePanel ⟨[PanelType.map], ∅, none⟩ PanelType.map =
      ⟨[PanelType.map], ∅, none⟩ :=
  (close_removes_and_idempotent ⟨[PanelType.map], ∅, none⟩ PanelType.map).2.2
    (by decide)

/-- C10: the startup state has Order equal to the registry identity list
`[map, music, chat]`, every panel visible, and no active drag; hence the
initial panel strip shows the full registry rather than the placeholder. -/
theorem initial_state_spec :
    initialState.panelOrder = registryIds ∧
    (∀ id : PanelType, id ∈ initialState.openPanels) ∧
    initialState.activeId = none ∧
    visiblePanels initialState = allPanels := by
  refine ⟨rfl, ?_, rfl, by decide⟩
  intro id
  cases id <;> decide

/-- C5 counterexample: with Order = [music, chat] (`map` absent), a drag-end
`reorder(map, music)` does not fail — the code has no InvalidIdentity
signal — and does not leave Order unchanged: it produces [chat, music]. -/
theorem reorder_absent_changes_order :
    PanelType.map ∉ absentIdState.panelOrder ∧
    (handleDragEnd absentIdState
      ⟨PanelType.map, some PanelType.music⟩).panelOrder =
      [PanelType.chat, PanelType.music] ∧
    (handleDragEnd absentIdState
      ⟨PanelType.map, some PanelType.music⟩).panelOrder ≠
      absentIdState.panelOrder := by decide

/-- C5 (amended): a reorder whose identities are not both present in Order
does not fail (the code has no InvalidIdentity signal) and need not leave
Order unchanged: `indexOf` yields the sentinel `-1`, which `arrayMove`'s
splice arithmetic counts from the end of the array.  Concretely: with
`fromId` absent and `toId` present, the last element of Order is removed
and reinserted at `toId`'s position; with `fromId` present and `toId`
absent, `fromId` is moved to the end of Order; with both absent and Order
nonempty, Order is unchanged. -/
theorem reorder_absent_behaviour (s : AppState) (fromId toId : PanelType)
    (hne : fromId ≠ toId) :
    (∀ hto : toId ∈ s.panelOrder, fromId ∉ s.panelOrder →
      (handleDragEnd s ⟨fromId, some toId⟩).panelOrder =
        s.panelOrder.dropLast.insertIdx (s.panelOrder.indexOf toId)
          (s.panelOrder.getLast (List.ne_nil_of_mem hto))) ∧
    (fromId ∈ s.panelOrder → toId ∉ s.panelOrder →
      (handleDragEnd s ⟨fromId, some toId⟩).panelOrder =
        s.panelOrder.erase fromId ++ [fromId]) ∧
    (s.panelOrder ≠ [] → fromId ∉ s.panelOrder → toId ∉ s.panelOrder →
      (handleDragEnd s ⟨fromId, some toId⟩).panelOrder = s.panelOrder) := by
  refine ⟨?_, ?_, ?_⟩
  · intro hto hfrom
    have hnil : s.panelOrder ≠ [] := List.ne_nil_of_mem hto
    have hlt : s.panelOrder.indexOf toId < s.panelOrder.length :=
      List.indexOf_lt_length.mpr hto
    simp only [handleDragEnd, if_pos hne, jsIndexOf, if_neg hfrom, if_pos hto]
    exact arrayMove_neg_one_left s.panelOrder hnil _ hlt
  · intro hfrom hto
    simp only [handleDragEnd, if_pos hne, jsIndexOf, if_pos hfrom, if_neg hto]
    exact arrayMove_indexOf_neg_one s.panelOrder fromId hfrom
  · intro hnil hfrom hto
    simp only [handleDragEnd, if_pos hne, jsIndexOf, if_neg hfrom, if_neg hto]
    exact arrayMove_neg_one_both s.panelOrder hnil

theorem reorder_absent_behaviour_witness :
    (handleDragEnd absentIdState
      ⟨PanelType.map, some PanelType.music⟩).panelOrder =
      absentIdState.panelOrder.dropLast.insertIdx
        (absentIdState.panelOrder.indexOf PanelType.music)
        (absentIdState.panelOrder.getLast (by decide)) :=
  (reorder_absent_behaviour absentIdState PanelType.map PanelType.music
    (by decide)).1 (by decide) (by decide)
